import Mathlib

/-!
# Verification of the selection-and-orchestration pipeline

Shallow embedding of the decision logic of the short-video automation
pipeline (`scripts/main.py`, `scripts/logger.py`, `scripts/pexels_fetcher.py`,
`scripts/license_validator.py`), with theorems settling the specified
properties of the History Store, the Candidate Filter, the Background
Selector and the Run Orchestrator.

Modelling conventions:
* Python floats are modelled as rationals (`ℚ`); `round(x, 4)` is modelled
  as exact decimal rounding to 4 places with round-half-to-even tie-break
  (Python's `round`), on the idealised rational value.
* Python dicts that carry scores are modelled as insertion-ordered
  association lists (`List (String × ℚ)`), matching the insertion-order
  iteration guarantee of Python dicts that the source relies on.
* External calls (HTTP fetches, downloads, subprocesses) are modelled as
  explicit parameters/oracles; the body of each embedded function is
  translated statement-by-statement from the Python source.
-/

/-- Python ids that cross the selector/history boundary are either JSON
numbers or strings; `str(...)` is applied before use as a dict key. -/
inductive PId where
  | intId (n : ℤ)
  | strId (s : String)
deriving DecidableEq, Repr

/-- Python `str(...)` on an id value: numbers print in decimal, strings are
returned unchanged. -/
def pyStr : PId → String
  | .intId n => toString n
  | .strId s => s

/-! ## History Store (`scripts/logger.py`)

The persisted JSON database `used_videos.json` has exactly two fields.
The file system is modelled as `Option DB`: `none` when
`not os.path.exists(DB_PATH)`, `some db` when the file holds the JSON
serialization of `db` (serialization fidelity of `json.dump`/`json.load`
is the json library's contract, so the file is modelled at value level). -/

structure DB where
  used_video_ids : List String
  background_performance : List (String × ℚ)
deriving DecidableEq, Repr

/-- Model of `load_db`: returns the default structure if the file is missing,
otherwise the parsed content. -/
def load_db (fs : Option DB) : DB :=
  fs.getD ⟨[], []⟩

/-- Model of `save_db`: persists the database; after it completes the file holds
exactly `data`. (Its non-atomic write sequence is modelled separately by
`save_db_trace`.) -/
def save_db (data : DB) : Option DB :=
  some data

/-- Observable on-disk contents, in order, while `save_db` executes:
the prior content, then the truncated file produced by
`open(DB_PATH, "w")`, then the fully written new content after
`json.dump` completes. `old : Option String` is the prior raw file
content (`none` = missing), `new` the serialized new record. -/
def save_db_trace (old : Option String) (new : String) : List (Option String) :=
  [old, some "", some new]

/-- Atomicity from the caller's perspective: every observable state during
the save is either the complete old content or the complete new content. -/
def atomic_save (old : Option String) (new : String) : Prop :=
  ∀ s ∈ save_db_trace old new, s = old ∨ s = some new

/-- Model of `is_used`: membership of a video id in the loaded `used_video_ids`. -/
def is_used (video_id : String) (fs : Option DB) : Bool :=
  decide (video_id ∈ (load_db fs).used_video_ids)

/-- Model of `mark_used`: load, append the id if not already present, save. -/
def mark_used (video_id : String) (fs : Option DB) : Option DB :=
  let db := load_db fs
  let db' :=
    if video_id ∈ db.used_video_ids then db
    else { db with used_video_ids := db.used_video_ids ++ [video_id] }
  save_db db'

/-- Python `dict.get(k, 0.0)` on an insertion-ordered association list. -/
def lookupScore (perf : List (String × ℚ)) (k : String) : ℚ :=
  match perf.find? (fun p => p.1 == k) with
  | some p => p.2
  | none => 0

/-- Python `dict[k] = v`: updates the first binding of `k` in place
(keeping its position), or appends a new binding at the end. -/
def setScore : List (String × ℚ) → String → ℚ → List (String × ℚ)
  | [], k, v => [(k, v)]
  | (k', v') :: rest, k, v =>
    if k' == k then (k, v) :: rest else (k', v') :: setScore rest k v

/-- Round-half-to-even to the nearest integer (the rounding mode of
Python's builtin `round`). -/
def rhe (q : ℚ) : ℤ :=
  let f := ⌊q⌋
  let r := q - f
  if r < 1/2 then f
  else if 1/2 < r then f + 1
  else if f % 2 = 0 then f else f + 1

/-- Python `round(x, 4)` on the idealised rational value. -/
def round4 (q : ℚ) : ℚ :=
  (rhe (q * 10000) : ℚ) / 10000

/-- Model of `record_background`: load, read the current score for `str(pexels_id)`
defaulting to `0.0`, store `round(current + engagement_boost, 4)`, save. -/
def record_background (pexels_id : PId) (engagement_boost : ℚ) (fs : Option DB) : Option DB :=
  let db := load_db fs
  let current := lookupScore db.background_performance (pyStr pexels_id)
  save_db { db with
    background_performance :=
      setScore db.background_performance (pyStr pexels_id)
        (round4 (current + engagement_boost)) }

/-- Model of `get_background_scores`: the full performance mapping. -/
def get_background_scores (fs : Option DB) : List (String × ℚ) :=
  (load_db fs).background_performance

/-! ## Background Selector (`scripts/pexels_fetcher.py`)

External HTTP calls are oracles: `fetchById` models the GET of
`https://api.pexels.com/videos/videos/{id}` (`none` = non-200 status),
and the two random-keyword searches are modelled by their result lists
`results1`/`results2` (the two independently drawn keywords' responses).
`_download_video` writes the chosen URL's content to the fixed path
`tmp/background.mp4`; the observable of a successful selection is the
pair (pexels id, downloaded URL). -/

/-- One rendition from a Pexels video's `video_files` array. -/
structure VideoFile where
  width : ℕ
  height : ℕ
  link : String
deriving DecidableEq, Repr

/-- One Pexels video object: its JSON id, `duration` in seconds, and its
renditions. -/
structure PexelsVideo where
  id : PId
  duration : ℕ
  video_files : List VideoFile
deriving DecidableEq, Repr

/-- Model of `MIN_WIDTH`: minimum width for portrait video. -/
def MIN_WIDTH : ℕ := 1080

/-- Model of `MIN_HEIGHT`: minimum height for portrait video. -/
def MIN_HEIGHT : ℕ := 1920

/-- Model of `HIGH_SCORE_THRESHOLD`: minimum engagement score to prefer a known
background over a new one. -/
def HIGH_SCORE_THRESHOLD : ℚ := 2

/-- Python `max(xs, key=key)` where `best` is the running first element:
a later element replaces the current best only when its key is strictly
greater, so the first element attaining the maximum wins. -/
def pyMaxBy {α β : Type} [LinearOrder β] (key : α → β) (best : α) : List α → α
  | [] => best
  | x :: xs => pyMaxBy key (if key best < key x then x else best) xs

/-- The list the renditions of `video` are drawn from by
`_get_best_video_file`: those meeting the minimum resolution in width or
height; if none, those with `height >= width`. -/
def survivingFiles (video : PexelsVideo) : List VideoFile :=
  let files := video.video_files
  let portrait_files := files.filter (fun f => decide (MIN_WIDTH ≤ f.width ∨ MIN_HEIGHT ≤ f.height))
  if portrait_files.isEmpty then files.filter (fun f => decide (f.width ≤ f.height))
  else portrait_files

/-- Model of `_get_best_video_file`: among the surviving renditions pick the one
maximizing `height * width` (Python `max`, first maximal on ties) and
return its `link`; `None` when no rendition survives. -/
def get_best_video_file (video : PexelsVideo) : Option String :=
  match survivingFiles video with
  | [] => none
  | f :: fs => some ((pyMaxBy (fun g => g.height * g.width) f fs).link)

/-- Model of `candidate_score` (closure inside `select_and_download_background`):
`scores.get(str(v["id"]), 0.0) * 3.0 + min(v["duration"] / 60.0, 1.0)`. -/
def candidate_score (scores : List (String × ℚ)) (v : PexelsVideo) : ℚ :=
  lookupScore scores (pyStr v.id) * 3 + min ((v.duration : ℚ) / 60) 1

/-- Insert `x` into `l` before the first element whose key is `≤ key x`:
the insertion step of a stable descending insertion sort. -/
def insertDesc {α : Type} (key : α → ℚ) (x : α) : List α → List α
  | [] => [x]
  | y :: ys => if key y ≤ key x then x :: y :: ys else y :: insertDesc key x ys

/-- Stable sort by `key` descending: the model of Python's stable
`list.sort(key=key, reverse=True)` (original order is the tie-break). -/
def sortDesc {α : Type} (key : α → ℚ) : List α → List α
  | [] => []
  | x :: xs => insertDesc key x (sortDesc key xs)

/-- The final loop of `select_and_download_background`: the first
candidate (in sorted order) with a valid portrait file, together with
that file's URL. -/
def firstEligible : List PexelsVideo → Option (PexelsVideo × String)
  | [] => none
  | v :: vs =>
    match get_best_video_file v with
    | some url => some (v, url)
    | none => firstEligible vs

/-- Selector failures: the two `RuntimeError`s of the search phase. -/
inductive SelectError where
  | noBackgroundAvailable
  | noEligibleBackground
deriving DecidableEq, Repr

/-- Strategy 2 of `select_and_download_background`: search with a random
keyword (`results1`), retry once with a second random keyword on empty
(`results2`), fail if still empty; otherwise sort candidates by
`candidate_score` descending (stable) and return the first with a valid
portrait file, as `(str(video["id"]), url)`. -/
def search_phase (scores : List (String × ℚ)) (results1 results2 : List PexelsVideo) :
    Except SelectError (String × String) :=
  let candidates := if results1.isEmpty then results2 else results1
  if candidates.isEmpty then .error .noBackgroundAvailable
  else
    match firstEligible (sortDesc (candidate_score scores) candidates) with
    | some (v, url) => .ok (pyStr v.id, url)
    | none => .error .noEligibleBackground

/-- Model of `select_and_download_background`: Strategy 1 re-uses the
top-scoring known background with score ≥ `HIGH_SCORE_THRESHOLD`
(dict-comprehension keeps insertion order; Python `max` takes the first
maximal) via fetch-by-id, returning `(str(best_id), url)` on success;
on fetch failure or no valid file it falls back to `search_phase`. -/
def select_and_download_background (scores : List (String × ℚ))
    (fetchById : String → Option PexelsVideo)
    (results1 results2 : List PexelsVideo) : Except SelectError (String × String) :=
  let high_performers := scores.filter (fun p => decide (HIGH_SCORE_THRESHOLD ≤ p.2))
  match high_performers with
  | [] => search_phase scores results1 results2
  | h :: hs =>
    let best := pyMaxBy (fun p => p.2) h hs
    match fetchById best.1 with
    | some video =>
      match get_best_video_file video with
      | some url => .ok (best.1, url)
      | none => search_phase scores results1 results2
    | none => search_phase scores results1 results2

/-! ## Candidate Filter (`scripts/license_validator.py`, `scripts/main.py` steps 2-3)

`validate_video` re-queries the YouTube API for the video id; the fields
it inspects (found/live/rating/embeddable/privacy) are modelled as fields
of the same video record, since both the fetcher's dict and the
validator's response describe the same video's metadata. Defaults of
`dict.get` are applied at the boundary (`liveBroadcastContent` defaults
to `"none"`, a missing `ytRating` is the empty string). -/

/-- One YouTube candidate: the fields of the dict built by
`youtube_fetcher.fetch_quran_videos` plus the API fields that
`license_validator.validate_video` inspects for the same id. -/
structure YTVideo where
  videoId : String
  title : String
  channelTitle : String
  duration_seconds : ℕ
  licensedContent : Bool
  embeddable : Bool
  found : Bool
  liveBroadcastContent : String
  ytRating : String
  privacyStatus : String
deriving DecidableEq, Repr

/-- Model of `validate_video`: not-found, live, age-restricted, non-embeddable and
non-public videos fail; the Creative-Commons branch is a `pass` in the
source (the API does not expose the license here), so no license or
duration condition is checked. -/
def validate_video (v : YTVideo) : Bool :=
  v.found && (v.liveBroadcastContent == "none") && !(v.ytRating == "ytAgeRestricted")
    && v.embeddable && (v.privacyStatus == "public")

/-- Model of `filter_valid_videos`: keep the videos that pass `validate_video`. -/
def filter_valid_videos (videos : List YTVideo) : List YTVideo :=
  videos.filter validate_video

/-- The candidate filter as composed by `main` (steps 2-3): drop the
already-used ids, then keep only the videos passing validation. -/
def filter_candidates (videos : List YTVideo) (fs : Option DB) : List YTVideo :=
  filter_valid_videos (videos.filter (fun v => !(is_used v.videoId fs)))

/-! ## Run Orchestrator (`scripts/main.py`)

Every external stage is an oracle in `Env`; an uncaught Python exception
in a stage is an `Except.error`, which aborts the run (`main` has no
try/except around download / background removal / background selection /
composition). The three platform uploads are each guarded by a
credentials check and a local try/except, so their results are recorded
but never abort the run. Metadata generation is local pure string
formatting and cannot fail. -/

/-- The three distribution platforms of step 9. -/
inductive Plat where
  | youtube
  | instagram
  | tiktok
deriving DecidableEq, Repr

/-- Oracles for one run: the fetched videos, the outcomes of the
external stages, the credential environment and the per-platform upload
outcomes (`Except.error` = the collaborator raised). -/
structure Env where
  videos : List YTVideo
  download : Except String (String × String)
  removeBg : Except String String
  fetchById : String → Option PexelsVideo
  results1 : List PexelsVideo
  results2 : List PexelsVideo
  compose : Except String String
  dryRun : Bool
  ytCreds : Bool
  igCreds : Bool
  ttCreds : Bool
  uploadYt : Except String Unit
  uploadIg : Except String Unit
  uploadTt : Except String Unit

/-- The terminal outcome of one run of `main`: the three `sys.exit(0)`
early exits, a fatal uncaught exception naming the stage, or success. -/
inductive RunOutcome where
  | noVideos
  | allUsed
  | noneValid
  | fatal (stage : String)
  | success (video_id : String) (pexels_id : String)
deriving DecidableEq, Repr

/-- What one run leaves behind: its terminal outcome, the resulting
persisted database state, and the upload attempts actually made
(platform, whether the upload succeeded), in attempt order. -/
structure MainResult where
  outcome : RunOutcome
  fsAfter : Option DB
  attempts : List (Plat × Bool)
deriving Repr

/-- Whether an upload attempt succeeded (its exception is caught). -/
def attemptOk {α : Type} : Except String α → Bool
  | .ok _ => true
  | .error _ => false

/-- Step 9 of `main`: each platform with complete credentials is
attempted, each inside its own try/except, independently of the others. -/
def uploadStep (env : Env) : List (Plat × Bool) :=
  (if env.ytCreds then [(Plat.youtube, attemptOk env.uploadYt)] else [])
    ++ (if env.igCreds then [(Plat.instagram, attemptOk env.uploadIg)] else [])
    ++ (if env.ttCreds then [(Plat.tiktok, attemptOk env.uploadTt)] else [])

/-- Model of `main`: the orchestrator, translated step by step. Steps 1-3 can end
the run early with no state change; steps 4-7 abort on failure with no
state change; step 9 is skipped under DRY_RUN and never aborts; step 10
marks the selected video used and records the background with
engagement boost 1.0. -/
def runMain (env : Env) (fs : Option DB) : MainResult :=
  if env.videos.isEmpty then ⟨.noVideos, fs, []⟩
  else
    let unused_videos := env.videos.filter (fun v => !(is_used v.videoId fs))
    if unused_videos.isEmpty then ⟨.allUsed, fs, []⟩
    else
      match filter_valid_videos unused_videos with
      | [] => ⟨.noneValid, fs, []⟩
      | video :: _ =>
        match env.download with
        | .error _ => ⟨.fatal "download", fs, []⟩
        | .ok _ =>
          match env.removeBg with
          | .error _ => ⟨.fatal "remove_background", fs, []⟩
          | .ok _ =>
            match select_and_download_background (get_background_scores fs)
                env.fetchById env.results1 env.results2 with
            | .error _ => ⟨.fatal "pexels_fetcher", fs, []⟩
            | .ok (pexels_id, _) =>
              match env.compose with
              | .error _ => ⟨.fatal "composer", fs, []⟩
              | .ok _ =>
                let attempts := if env.dryRun then [] else uploadStep env
                let fs1 := mark_used video.videoId fs
                let fs2 := record_background (.strId pexels_id) 1 fs1
                ⟨.success video.videoId pexels_id, fs2, attempts⟩

/-! ## Helper lemmas -/

theorem rhe_intCast (n : ℤ) : rhe (n : ℚ) = n := by
  unfold rhe
  simp

theorem floor_le_rhe (q : ℚ) : ⌊q⌋ ≤ rhe q := by
  simp only [rhe]
  split_ifs <;> omega

theorem round4_num (p : ℚ) (hp : round4 p = p) : ((rhe (p * 10000) : ℤ) : ℚ) = p * 10000 := by
  unfold round4 at hp
  field_simp at hp
  exact hp

theorem round4_add_intCast (p : ℚ) (k : ℤ) (hp : round4 p = p) :
    round4 (p + k) = p + k := by
  have hm : ((rhe (p * 10000) : ℤ) : ℚ) = p * 10000 := round4_num p hp
  have h1 : (p + k) * 10000 = ((rhe (p * 10000) + k * 10000 : ℤ) : ℚ) := by
    push_cast
    rw [hm]
    ring
  unfold round4
  rw [h1, rhe_intCast]
  push_cast
  rw [hm]
  ring

theorem le_round4_add (p inc : ℚ) (hp : round4 p = p) (h : 0 ≤ inc) :
    p ≤ round4 (p + inc) := by
  have hm : ((rhe (p * 10000) : ℤ) : ℚ) = p * 10000 := round4_num p hp
  have h1 : ((rhe (p * 10000) : ℤ) : ℚ) ≤ (p + inc) * 10000 := by
    rw [hm]; nlinarith
  have h2 : (rhe (p * 10000) : ℤ) ≤ ⌊(p + inc) * 10000⌋ := Int.le_floor.mpr h1
  have h3 : (rhe (p * 10000) : ℤ) ≤ rhe ((p + inc) * 10000) :=
    le_trans h2 (floor_le_rhe _)
  have h4 : ((rhe (p * 10000) : ℤ) : ℚ) ≤ ((rhe ((p + inc) * 10000) : ℤ) : ℚ) := by
    exact_mod_cast h3
  unfold round4
  rw [hm] at h4
  linarith

theorem lookupScore_cons_self (k : String) (v : ℚ) (l : List (String × ℚ)) :
    lookupScore ((k, v) :: l) k = v := by
  simp [lookupScore, List.find?_cons_of_pos]

theorem lookupScore_cons_of_ne (k' k : String) (v' : ℚ) (l : List (String × ℚ))
    (h : k' ≠ k) : lookupScore ((k', v') :: l) k = lookupScore l k := by
  simp only [lookupScore]
  rw [List.find?_cons_of_neg]
  simp [h]

theorem lookupScore_setScore_self (perf : List (String × ℚ)) (k : String) (v : ℚ) :
    lookupScore (setScore perf k v) k = v := by
  induction perf with
  | nil => simp [setScore, lookupScore_cons_self]
  | cons p rest ih =>
    rcases p with ⟨k', v'⟩
    by_cases h : k' = k
    · subst h
      have hs : setScore ((k', v') :: rest) k' v = (k', v) :: rest := by
        simp [setScore]
      rw [hs]
      exact lookupScore_cons_self k' v rest
    · have hs : setScore ((k', v') :: rest) k v = (k', v') :: setScore rest k v := by
        simp [setScore, h]
      rw [hs, lookupScore_cons_of_ne k' k v' _ h]
      exact ih

theorem lookupScore_eq_zero (perf : List (String × ℚ)) (k : String)
    (h : ∀ p ∈ perf, p.1 ≠ k) : lookupScore perf k = 0 := by
  induction perf with
  | nil => simp [lookupScore]
  | cons p rest ih =>
    rcases p with ⟨k', v'⟩
    have hp : k' ≠ k := h (k', v') (List.mem_cons_self _ rest)
    rw [lookupScore_cons_of_ne k' k v' _ hp]
    exact ih fun q hq => h q (List.mem_cons_of_mem _ hq)

theorem pyMaxBy_split {α β : Type} [LinearOrder β] (key : α → β) (l : List α) :
    ∀ b : α, ∃ l1 l2,
      b :: l = l1 ++ pyMaxBy key b l :: l2 ∧
      (∀ y ∈ l1, key y < key (pyMaxBy key b l)) ∧
      (∀ y ∈ l2, key y ≤ key (pyMaxBy key b l)) := by
  induction l with
  | nil =>
    intro b
    exact ⟨[], [], rfl, by simp, by simp⟩
  | cons x xs ih =>
    intro b
    by_cases h : key b < key x
    · obtain ⟨l1, l2, heq, h1, h2⟩ := ih x
      have hpm : pyMaxBy key b (x :: xs) = pyMaxBy key x xs := by
        simp [pyMaxBy, h]
      have hall : ∀ y ∈ x :: xs, key y ≤ key (pyMaxBy key x xs) := by
        intro y hy
        rw [heq] at hy
        rcases List.mem_append.mp hy with hy1 | hy2
        · exact le_of_lt (h1 y hy1)
        · rcases List.mem_cons.mp hy2 with hy3 | hy4
          · rw [hy3]
          · exact h2 y hy4
      refine ⟨b :: l1, l2, ?_, ?_, ?_⟩
      · rw [hpm, List.cons_append, ← heq]
      · intro y hy
        rw [hpm]
        rcases List.mem_cons.mp hy with hy1 | hy2
        · rw [hy1]
          exact lt_of_lt_of_le h (hall x (List.mem_cons_self x xs))
        · exact h1 y hy2
      · intro y hy
        rw [hpm]
        exact h2 y hy
    · obtain ⟨l1, l2, heq, h1, h2⟩ := ih b
      have hpm : pyMaxBy key b (x :: xs) = pyMaxBy key b xs := by
        simp [pyMaxBy, h]
      cases l1 with
      | nil =>
        rw [List.nil_append] at heq
        injection heq with hb hxs
        refine ⟨[], x :: l2, ?_, by simp, ?_⟩
        · rw [hpm, List.nil_append, ← hb, ← hxs]
        · intro y hy
          rw [hpm]
          rcases List.mem_cons.mp hy with hy1 | hy2
          · rw [hy1, ← hb]
            exact not_lt.mp h
          · exact h2 y hy2
      | cons a t =>
        rw [List.cons_append] at heq
        injection heq with hba hxs
        have hbr : key b < key (pyMaxBy key b xs) := by
          have ha := h1 a (List.mem_cons_self a t)
          rw [← hba] at ha
          exact ha
        refine ⟨b :: x :: t, l2, ?_, ?_, ?_⟩
        · rw [hpm]
          simp only [List.cons_append]
          rw [← hxs]
        · intro y hy
          rw [hpm]
          rcases List.mem_cons.mp hy with hy1 | hy2
          · rw [hy1]; exact hbr
          · rcases List.mem_cons.mp hy2 with hy3 | hy4
            · rw [hy3]
              exact lt_of_le_of_lt (not_lt.mp h) hbr
            · exact h1 y (List.mem_cons_of_mem a hy4)
        · intro y hy
          rw [hpm]
          exact h2 y hy

theorem pyMaxBy_mem {α β : Type} [LinearOrder β] (key : α → β) (b : α) (l : List α) :
    pyMaxBy key b l ∈ b :: l := by
  obtain ⟨l1, l2, heq, _, _⟩ := pyMaxBy_split key l b
  rw [heq]
  exact List.mem_append.mpr (Or.inr (List.mem_cons_self _ _))

theorem le_pyMaxBy {α β : Type} [LinearOrder β] (key : α → β) (b : α) (l : List α) :
    ∀ y ∈ b :: l, key y ≤ key (pyMaxBy key b l) := by
  obtain ⟨l1, l2, heq, h1, h2⟩ := pyMaxBy_split key l b
  intro y hy
  rw [heq] at hy
  rcases List.mem_append.mp hy with hy1 | hy2
  · exact le_of_lt (h1 y hy1)
  · rcases List.mem_cons.mp hy2 with hy3 | hy4
    · rw [hy3]
    · exact h2 y hy4

theorem insertDesc_split {α : Type} (key : α → ℚ) (x : α) (l : List α) :
    ∃ l1 l2, insertDesc key x l = l1 ++ x :: l2 ∧ l = l1 ++ l2 ∧
      ∀ y ∈ l1, key x < key y := by
  induction l with
  | nil => exact ⟨[], [], rfl, rfl, by simp⟩
  | cons y ys ih =>
    by_cases h : key y ≤ key x
    · exact ⟨[], y :: ys, by simp [insertDesc, if_pos h], rfl, by simp⟩
    · obtain ⟨l1, l2, he, hl, hk⟩ := ih
      refine ⟨y :: l1, l2, ?_, ?_, ?_⟩
      · simp only [insertDesc, if_neg h]
        rw [he, List.cons_append]
      · rw [List.cons_append, ← hl]
      · intro z hz
        rcases List.mem_cons.mp hz with h1 | h2
        · rw [h1]; exact not_le.mp h
        · exact hk z h2

theorem insertDesc_perm {α : Type} (key : α → ℚ) (x : α) (l : List α) :
    (insertDesc key x l).Perm (x :: l) := by
  obtain ⟨l1, l2, he, hl, _⟩ := insertDesc_split key x l
  rw [he, hl]
  exact List.perm_middle

theorem sortDesc_perm {α : Type} (key : α → ℚ) (l : List α) :
    (sortDesc key l).Perm l := by
  induction l with
  | nil => rfl
  | cons x xs ih =>
    exact (insertDesc_perm key x (sortDesc key xs)).trans (List.Perm.cons x ih)

theorem mem_insertDesc {α : Type} (key : α → ℚ) (x : α) (l : List α) (z : α)
    (hz : z ∈ insertDesc key x l) : z = x ∨ z ∈ l :=
  List.mem_cons.mp ((insertDesc_perm key x l).mem_iff.mp hz)

theorem insertDesc_sorted {α : Type} (key : α → ℚ) (x : α) (l : List α)
    (hs : l.Sorted (fun a b => key b ≤ key a)) :
    (insertDesc key x l).Sorted (fun a b => key b ≤ key a) := by
  induction l with
  | nil => simp [insertDesc]
  | cons y ys ih =>
    rw [List.sorted_cons] at hs
    obtain ⟨hy, hys⟩ := hs
    by_cases h : key y ≤ key x
    · simp only [insertDesc, if_pos h]
      rw [List.sorted_cons]
      refine ⟨?_, ?_⟩
      · intro b hb
        rcases List.mem_cons.mp hb with h1 | h2
        · rw [h1]; exact h
        · exact le_trans (hy b h2) h
      · rw [List.sorted_cons]
        exact ⟨hy, hys⟩
    · simp only [insertDesc, if_neg h]
      rw [List.sorted_cons]
      refine ⟨?_, ih hys⟩
      intro b hb
      rcases mem_insertDesc key x ys b hb with h1 | h2
      · rw [h1]
        exact le_of_lt (not_le.mp h)
      · exact hy b h2

theorem sortDesc_sorted {α : Type} (key : α → ℚ) (l : List α) :
    (sortDesc key l).Sorted (fun a b => key b ≤ key a) := by
  induction l with
  | nil => simp [sortDesc]
  | cons x xs ih => exact insertDesc_sorted key x _ ih

theorem filter_insertDesc {α : Type} (key : α → ℚ) (q : ℚ) (x : α) (l : List α) :
    (insertDesc key x l).filter (fun z => decide (key z = q)) =
      if key x = q then x :: l.filter (fun z => decide (key z = q))
      else l.filter (fun z => decide (key z = q)) := by
  obtain ⟨l1, l2, he, hl, hk⟩ := insertDesc_split key x l
  rw [he, hl, List.filter_append, List.filter_append, List.filter_cons]
  by_cases hx : key x = q
  · have hl1 : l1.filter (fun z => decide (key z = q)) = [] := by
      rw [List.filter_eq_nil_iff]
      intro a ha
      have hlt : key x < key a := hk a ha
      simp only [decide_eq_true_eq]
      intro hq
      rw [hx, hq] at hlt
      exact lt_irrefl _ hlt
    rw [if_pos hx, hl1]
    simp [hx]
  · rw [if_neg hx]
    simp [hx]

theorem sortDesc_stable {α : Type} (key : α → ℚ) (q : ℚ) (l : List α) :
    (sortDesc key l).filter (fun z => decide (key z = q)) =
      l.filter (fun z => decide (key z = q)) := by
  induction l with
  | nil => rfl
  | cons x xs ih =>
    show (insertDesc key x (sortDesc key xs)).filter _ = _
    rw [filter_insertDesc, List.filter_cons]
    by_cases hx : key x = q
    · rw [if_pos hx, ih]
      simp [hx]
    · rw [if_neg hx, ih]
      simp [hx]

theorem firstEligible_split (l : List PexelsVideo) (v : PexelsVideo) (u : String)
    (h : firstEligible l = some (v, u)) :
    ∃ l1 l2, l = l1 ++ v :: l2 ∧ (∀ w ∈ l1, get_best_video_file w = none) ∧
      get_best_video_file v = some u := by
  induction l with
  | nil => simp [firstEligible] at h
  | cons w ws ih =>
    rw [firstEligible] at h
    cases hw : get_best_video_file w with
    | some url =>
      rw [hw] at h
      simp only [Option.some.injEq, Prod.mk.injEq] at h
      obtain ⟨h1, h2⟩ := h
      refine ⟨[], ws, by rw [h1, List.nil_append], by simp, ?_⟩
      rw [← h1, hw, h2]
    | none =>
      rw [hw] at h
      obtain ⟨l1, l2, he, hn, hv⟩ := ih h
      refine ⟨w :: l1, l2, by rw [List.cons_append, ← he], ?_, hv⟩
      intro z hz
      rcases List.mem_cons.mp hz with h1 | h2
      · rw [h1]; exact hw
      · exact hn z h2

theorem firstEligible_eq_none (l : List PexelsVideo) :
    firstEligible l = none ↔ ∀ v ∈ l, get_best_video_file v = none := by
  induction l with
  | nil => simp [firstEligible]
  | cons w ws ih =>
    rw [firstEligible]
    cases hw : get_best_video_file w with
    | some url =>
      simp only [hw]
      constructor
      · intro h; exact absurd h (by simp)
      · intro h
        have := h w (List.mem_cons_self w ws)
        rw [hw] at this
        exact absurd this (by simp)
    | none =>
      simp only [hw]
      rw [ih]
      constructor
      · intro h v hv
        rcases List.mem_cons.mp hv with h1 | h2
        · rw [h1]; exact hw
        · exact h v h2
      · intro h v hv
        exact h v (List.mem_cons_of_mem w hv)

theorem record_background_scores (id : PId) (b : ℚ) (fs : Option DB) :
    get_background_scores (record_background id b fs) =
      setScore (get_background_scores fs) (pyStr id)
        (round4 (lookupScore (get_background_scores fs) (pyStr id) + b)) := by
  cases fs <;> rfl

theorem round4_add_one (p : ℚ) (hp : round4 p = p) : round4 (p + 1) = p + 1 := by
  have h := round4_add_intCast p 1 hp
  push_cast at h
  exact h

theorem round4_zero : round4 0 = 0 := by
  unfold round4 rhe
  norm_num

/-! ## Claim theorems -/

/-- C9: `load_db` never fails on missing storage and returns the default
empty record (`{used_video_ids: [], background_performance: {}}`); and
for every state, save-then-load of a loaded record returns the same
record content (round-trip stability). -/
theorem spec_C9_load_save_roundtrip :
    load_db none = ⟨[], []⟩ ∧
    ∀ fs : Option DB, load_db (save_db (load_db fs)) = load_db fs := by
  refine ⟨rfl, ?_⟩
  intro fs
  cases fs <;> rfl

/-- C8: `mark_used` always persists the record; marking an already-present
id leaves the used list unchanged; marking a new id appends it exactly
once; a duplicate-free used list stays duplicate-free; and `mark_used`
is idempotent. -/
theorem spec_C8_mark_used_idempotent (video_id : String) (fs : Option DB) :
    (mark_used video_id fs).isSome = true ∧
    (video_id ∈ (load_db fs).used_video_ids →
      (load_db (mark_used video_id fs)).used_video_ids = (load_db fs).used_video_ids) ∧
    (video_id ∉ (load_db fs).used_video_ids →
      (load_db (mark_used video_id fs)).used_video_ids
        = (load_db fs).used_video_ids ++ [video_id]) ∧
    ((load_db fs).used_video_ids.Nodup →
      (load_db (mark_used video_id fs)).used_video_ids.Nodup) ∧
    mark_used video_id (mark_used video_id fs) = mark_used video_id fs := by
  by_cases h : video_id ∈ (load_db fs).used_video_ids
  · have hm : mark_used video_id fs = some (load_db fs) := by
      simp [mark_used, save_db, h]
    refine ⟨by rw [hm]; rfl, fun _ => by rw [hm]; rfl, fun hn => absurd h hn,
      fun hd => by rw [hm]; exact hd, ?_⟩
    rw [hm]
    have h' : video_id ∈ ((fs.getD (⟨[], []⟩ : DB))).used_video_ids := h
    simp only [mark_used, save_db, load_db, Option.getD_some]
    rw [if_pos h']
  · have hm : mark_used video_id fs =
        some { load_db fs with
          used_video_ids := (load_db fs).used_video_ids ++ [video_id] } := by
      simp [mark_used, save_db, h]
    refine ⟨by rw [hm]; rfl, fun hc => absurd hc h, fun _ => by rw [hm]; rfl, ?_, ?_⟩
    · intro hd
      rw [hm]
      show ((load_db fs).used_video_ids ++ [video_id]).Nodup
      simp [List.nodup_append, hd, h]
    · rw [hm]
      simp [mark_used, save_db, load_db]

/-- C8 witness: starting from missing storage, marking `"v1"` appends it
once and keeps the used list duplicate-free. -/
theorem spec_C8_witness :
    (load_db (mark_used "v1" none)).used_video_ids
        = (load_db none).used_video_ids ++ ["v1"] ∧
    (load_db (mark_used "v1" none)).used_video_ids.Nodup := by
  have h := spec_C8_mark_used_idempotent "v1" none
  exact ⟨h.2.2.1 (by simp [load_db]), h.2.2.2.1 (by simp [load_db])⟩

/-- C7: `record_background` stores `round(prior + increment, 4)` with the
prior defaulting to 0.0 for unseen ids; it is additive under repetition
(twice with increment 1.0 yields prior + 2.0 for any stored 4-decimal
prior); and the stored score never decreases for non-negative
increments. -/
theorem spec_C7_record_background_additive (id : PId) (b : ℚ) (fs : Option DB) :
    (lookupScore (get_background_scores (record_background id b fs)) (pyStr id)
      = round4 (lookupScore (get_background_scores fs) (pyStr id) + b)) ∧
    ((∀ p ∈ get_background_scores fs, p.1 ≠ pyStr id) →
      lookupScore (get_background_scores fs) (pyStr id) = 0) ∧
    (round4 (lookupScore (get_background_scores fs) (pyStr id))
        = lookupScore (get_background_scores fs) (pyStr id) →
      lookupScore
          (get_background_scores (record_background id 1 (record_background id 1 fs)))
          (pyStr id)
        = lookupScore (get_background_scores fs) (pyStr id) + 2) ∧
    (0 ≤ b →
      round4 (lookupScore (get_background_scores fs) (pyStr id))
        = lookupScore (get_background_scores fs) (pyStr id) →
      lookupScore (get_background_scores fs) (pyStr id)
        ≤ lookupScore (get_background_scores (record_background id b fs)) (pyStr id)) := by
  refine ⟨?_, ?_, ?_, ?_⟩
  · rw [record_background_scores, lookupScore_setScore_self]
  · exact lookupScore_eq_zero _ _
  · intro hp
    rw [record_background_scores, record_background_scores, lookupScore_setScore_self,
      lookupScore_setScore_self]
    rw [round4_add_one _ hp]
    have hp1 : round4 (lookupScore (get_background_scores fs) (pyStr id) + 1)
        = lookupScore (get_background_scores fs) (pyStr id) + 1 := round4_add_one _ hp
    rw [round4_add_one _ hp1]
    ring
  · intro hb hp
    rw [record_background_scores, lookupScore_setScore_self]
    exact le_round4_add _ b hp hb

/-- C7 witness: from empty history, recording background `"bg"` twice with
increment 1.0 yields score 2.0, monotonically above the prior 0.0. -/
theorem spec_C7_witness :
    lookupScore
        (get_background_scores
          (record_background (PId.strId "bg") 1 (record_background (PId.strId "bg") 1 none)))
        (pyStr (PId.strId "bg"))
      = lookupScore (get_background_scores none) (pyStr (PId.strId "bg")) + 2 ∧
    lookupScore (get_background_scores none) (pyStr (PId.strId "bg")) = 0 := by
  have h := spec_C7_record_background_additive (PId.strId "bg") 1 none
  exact ⟨h.2.2.1 round4_zero, h.2.1 (by simp [get_background_scores, load_db])⟩

/-- C6 counterexample: `save_db` opens the destination with mode `"w"`,
which truncates in place, so during the save the file holds neither the
old nor the new record — the claimed atomicity fails on a concrete
old/new pair. -/
theorem spec_C6_counterexample : ¬ atomic_save (some "old") "new" := by
  intro h
  have hmem : some "" ∈ save_db_trace (some "old") "new" := by
    simp [save_db_trace]
  rcases h (some "") hmem with h1 | h2
  · exact absurd (Option.some.inj h1) (by decide)
  · exact absurd (Option.some.inj h2) (by decide)

/-- C6 amended: `save_db` fully overwrites the prior persisted state (the
final observable content is exactly the new record), but it is not
atomic: it writes the destination in place through a truncating
`open(..., "w")`, so whenever the old content is not itself the empty
string and the new content is non-empty, a reader or crash during the
save observes a state that is neither the old nor the new record. -/
theorem spec_C6_overwrite_not_atomic (old : Option String) (new : String) :
    (save_db_trace old new).getLast? = some (some new) ∧
    some "" ∈ save_db_trace old new ∧
    (old ≠ some "" → new ≠ "" → ¬ atomic_save old new) := by
  refine ⟨rfl, by simp [save_db_trace], ?_⟩
  intro h1 h2 h
  have hmem : some "" ∈ save_db_trace old new := by
    simp [save_db_trace]
  rcases h (some "") hmem with h3 | h4
  · exact h1 h3.symm
  · exact h2 (Option.some.inj h4).symm

/-- C6 witness: on the concrete pair `old = "prev"`, `new = "next"` the
save ends with the new content but is not atomic. -/
theorem spec_C6_witness :
    (save_db_trace (some "prev") "next").getLast? = some (some "next") ∧
    ¬ atomic_save (some "prev") "next" := by
  have h := spec_C6_overwrite_not_atomic (some "prev") "next"
  exact ⟨h.1, h.2.2 (by decide) (by decide)⟩

theorem search_phase_ok (scores : List (String × ℚ)) (r1 r2 : List PexelsVideo)
    (i u : String) (h : search_phase scores r1 r2 = .ok (i, u)) :
    ∃ w ∈ (if r1.isEmpty then r2 else r1),
      i = pyStr w.id ∧ get_best_video_file w = some u := by
  simp only [search_phase] at h
  by_cases hce : (if r1.isEmpty then r2 else r1).isEmpty
  · rw [if_pos hce] at h
    exact absurd h (by simp)
  · rw [if_neg hce] at h
    cases hfe : firstEligible (sortDesc (candidate_score scores) (if r1.isEmpty then r2 else r1)) with
    | none =>
      rw [hfe] at h
      exact absurd h (by simp)
    | some p =>
      rcases p with ⟨v, url⟩
      rw [hfe] at h
      simp only [Except.ok.injEq, Prod.mk.injEq] at h
      obtain ⟨hi, hu⟩ := h
      obtain ⟨l1, l2, he, _, hv⟩ := firstEligible_split _ v url hfe
      have hvmem : v ∈ sortDesc (candidate_score scores) (if r1.isEmpty then r2 else r1) := by
        rw [he]
        exact List.mem_append.mpr (Or.inr (List.mem_cons_self _ _))
      have hvc : v ∈ (if r1.isEmpty then r2 else r1) :=
        (sortDesc_perm (candidate_score scores) _).mem_iff.mp hvmem
      exact ⟨v, hvc, hi.symm, by rw [hv, hu]⟩

/-- C10: every background id crossing the selector/history boundary is
normalized with `str(...)`: `record_background` keyed by a numeric id and
by its decimal string form write the same entry, `candidate_score` looks
history scores up under the same normalization, recording under the two
forms accumulates in one key, and a successful selection returns either
a history key (reuse phase) or `str(video["id"])` of a search
candidate. -/
theorem spec_C10_string_id_normalization (n : ℤ) (b1 b2 : ℚ) (fs : Option DB)
    (v : PexelsVideo) (scores : List (String × ℚ)) :
    record_background (PId.intId n) b1 fs = record_background (PId.strId (toString n)) b1 fs ∧
    candidate_score scores { v with id := PId.intId n }
      = candidate_score scores { v with id := PId.strId (toString n) } ∧
    lookupScore
        (get_background_scores
          (record_background (PId.strId (toString n)) b2
            (record_background (PId.intId n) b1 fs)))
        (pyStr (PId.intId n))
      = round4 (round4 (lookupScore (get_background_scores fs) (toString n) + b1) + b2) ∧
    (∀ fetchById r1 r2 i u,
      select_and_download_background scores fetchById r1 r2 = .ok (i, u) →
      (∃ p ∈ scores, i = p.1) ∨
        ∃ w ∈ (if r1.isEmpty then r2 else r1),
          i = pyStr w.id ∧ get_best_video_file w = some u) := by
  refine ⟨rfl, rfl, ?_, ?_⟩
  · rw [record_background_scores, record_background_scores]
    simp only [pyStr]
    rw [lookupScore_setScore_self, lookupScore_setScore_self]
  · intro fetchById r1 r2 i u h
    simp only [select_and_download_background] at h
    cases hfil : scores.filter (fun p => decide (HIGH_SCORE_THRESHOLD ≤ p.2)) with
    | nil =>
      rw [hfil] at h
      exact Or.inr (search_phase_ok scores r1 r2 i u h)
    | cons hd tl =>
      rw [hfil] at h
      dsimp only at h
      cases hfb : fetchById (pyMaxBy (fun p => p.2) hd tl).1 with
      | none =>
        rw [hfb] at h
        exact Or.inr (search_phase_ok scores r1 r2 i u h)
      | some video =>
        rw [hfb] at h
        dsimp only at h
        cases hgb : get_best_video_file video with
        | none =>
          rw [hgb] at h
          exact Or.inr (search_phase_ok scores r1 r2 i u h)
        | some url =>
          rw [hgb] at h
          dsimp only at h
          simp only [Except.ok.injEq, Prod.mk.injEq] at h
          obtain ⟨hi, _⟩ := h
          have hmem : pyMaxBy (fun p => p.2) hd tl ∈ hd :: tl :=
            pyMaxBy_mem (fun p => p.2) hd tl
          rw [← hfil] at hmem
          exact Or.inl ⟨_, List.mem_of_mem_filter hmem, hi.symm⟩

/-- C10 witness: recording id 7 numerically equals recording `"7"`, and a
concrete successful selection from history `{"5": 3.0}` returns the
history key `"5"`. -/
theorem spec_C10_witness :
    record_background (PId.intId 7) 1 none = record_background (PId.strId "7") 1 none ∧
    ((∃ p ∈ [("5", (3:ℚ))], "5" = p.1) ∨
      ∃ w ∈ (if ([] : List PexelsVideo).isEmpty then ([] : List PexelsVideo) else []),
        "5" = pyStr w.id ∧ get_best_video_file w = some "link") := by
  have h := spec_C10_string_id_normalization 7 1 1 none
    ⟨PId.intId 5, 30, [⟨1080, 1920, "link"⟩]⟩ [("5", (3:ℚ))]
  refine ⟨h.1, ?_⟩
  exact h.2.2.2 (fun _ => some ⟨PId.intId 5, 30, [⟨1080, 1920, "link"⟩]⟩) [] [] "5" "link" rfl

theorem survivingFiles_eq_nil (video : PexelsVideo) :
    survivingFiles video = [] ↔
      video.video_files.filter
          (fun f => decide (MIN_WIDTH ≤ f.width ∨ MIN_HEIGHT ≤ f.height)) = [] ∧
      video.video_files.filter (fun f => decide (f.width ≤ f.height)) = [] := by
  unfold survivingFiles
  by_cases hp : (video.video_files.filter
      (fun f => decide (MIN_WIDTH ≤ f.width ∨ MIN_HEIGHT ≤ f.height))).isEmpty
  · rw [if_pos hp]
    have h1 : video.video_files.filter
        (fun f => decide (MIN_WIDTH ≤ f.width ∨ MIN_HEIGHT ≤ f.height)) = [] := by
      rwa [List.isEmpty_iff] at hp
    constructor
    · intro hsec
      exact ⟨h1, hsec⟩
    · intro hb
      exact hb.2
  · rw [if_neg hp]
    have h1 : video.video_files.filter
        (fun f => decide (MIN_WIDTH ≤ f.width ∨ MIN_HEIGHT ≤ f.height)) ≠ [] := by
      intro hc
      exact hp (List.isEmpty_iff.mpr hc)
    constructor
    · intro hc
      exact absurd hc h1
    · intro hb
      exact absurd hb.1 h1

theorem get_best_video_file_eq_none (video : PexelsVideo) :
    get_best_video_file video = none ↔ survivingFiles video = [] := by
  unfold get_best_video_file
  cases hs : survivingFiles video <;> simp

/-- C5 counterexample: a video whose only rendition is a 500×500 square
meets neither the minimum-resolution condition nor the claim's strict
taller-than-wide fallback, yet the code returns that rendition — so the
claim that a rendition is returned only when one of the claim's two sets
is non-empty is false. -/
theorem spec_C5_counterexample :
    get_best_video_file ⟨PId.intId 1, 10, [⟨500, 500, "sq"⟩]⟩ = some "sq" ∧
    (∀ f ∈ (⟨PId.intId 1, 10, [⟨500, 500, "sq"⟩]⟩ : PexelsVideo).video_files,
      ¬ (MIN_WIDTH ≤ f.width ∨ MIN_HEIGHT ≤ f.height)) ∧
    (∀ f ∈ (⟨PId.intId 1, 10, [⟨500, 500, "sq"⟩]⟩ : PexelsVideo).video_files,
      ¬ f.width < f.height) := by
  refine ⟨by decide, by decide, by decide⟩

/-- C5 amended: rendition selection keeps the renditions meeting the
minimum target resolution in width or height; if that set is empty it
falls back to the renditions at least as tall as wide (`height >= width`,
not strictly taller); no rendition is returned iff both of those sets
are empty, and otherwise the returned URL belongs to a surviving
rendition of maximal `width * height`. -/
theorem spec_C5_rendition_selection (video : PexelsVideo) :
    (get_best_video_file video = none ↔
      video.video_files.filter
          (fun f => decide (MIN_WIDTH ≤ f.width ∨ MIN_HEIGHT ≤ f.height)) = [] ∧
      video.video_files.filter (fun f => decide (f.width ≤ f.height)) = []) ∧
    (∀ url, get_best_video_file video = some url →
      ∃ f ∈ survivingFiles video, url = f.link ∧
        ∀ g ∈ survivingFiles video, g.height * g.width ≤ f.height * f.width) := by
  constructor
  · rw [get_best_video_file_eq_none, survivingFiles_eq_nil]
  · intro url h
    unfold get_best_video_file at h
    cases hs : survivingFiles video with
    | nil =>
      rw [hs] at h
      exact absurd h (by simp)
    | cons f fs =>
      rw [hs] at h
      have hurl : url = (pyMaxBy (fun g => g.height * g.width) f fs).link :=
        (Option.some.inj h).symm
      refine ⟨pyMaxBy (fun g => g.height * g.width) f fs, ?_, hurl, ?_⟩
      · exact pyMaxBy_mem (fun g : VideoFile => g.height * g.width) f fs
      · intro g hg
        exact le_pyMaxBy (fun g : VideoFile => g.height * g.width) f fs g hg

/-- C5 witness: for a video with renditions 1080×1920 and 2160×3840 the
code returns the larger rendition's URL, which is a surviving rendition
of maximal area. -/
theorem spec_C5_witness :
    ∃ f ∈ survivingFiles ⟨PId.intId 2, 10, [⟨1080, 1920, "a"⟩, ⟨2160, 3840, "b"⟩]⟩,
      "b" = f.link ∧
      ∀ g ∈ survivingFiles ⟨PId.intId 2, 10, [⟨1080, 1920, "a"⟩, ⟨2160, 3840, "b"⟩]⟩,
        g.height * g.width ≤ f.height * f.width :=
  (spec_C5_rendition_selection ⟨PId.intId 2, 10, [⟨1080, 1920, "a"⟩, ⟨2160, 3840, "b"⟩]⟩).2
    "b" (by decide)

/-- C3: reuse phase of the selector. With no score at or above the
threshold the selector goes straight to the search phase. Otherwise it
attempts exactly the first highest-scoring id of the thresholded mapping
(insertion order breaks ties): the result never depends on fetch-by-id
at any other id; a failed fetch or an ineligible asset falls through to
the search phase (no other high performer is tried); a successful fetch
with an eligible rendition returns that id at once. -/
theorem spec_C3_reuse_phase (scores : List (String × ℚ))
    (fetchById : String → Option PexelsVideo) (r1 r2 : List PexelsVideo) :
    (scores.filter (fun p => decide (HIGH_SCORE_THRESHOLD ≤ p.2)) = [] →
      select_and_download_background scores fetchById r1 r2 = search_phase scores r1 r2) ∧
    (∀ hd tl, scores.filter (fun p => decide (HIGH_SCORE_THRESHOLD ≤ p.2)) = hd :: tl →
      (∃ l1 l2, hd :: tl = l1 ++ pyMaxBy (fun p => p.2) hd tl :: l2 ∧
        (∀ q ∈ l1, q.2 < (pyMaxBy (fun p => p.2) hd tl).2) ∧
        (∀ q ∈ l2, q.2 ≤ (pyMaxBy (fun p => p.2) hd tl).2)) ∧
      (∀ g : String → Option PexelsVideo,
        g ((pyMaxBy (fun p => p.2) hd tl).1) = fetchById ((pyMaxBy (fun p => p.2) hd tl).1) →
        select_and_download_background scores g r1 r2
          = select_and_download_background scores fetchById r1 r2) ∧
      (fetchById ((pyMaxBy (fun p => p.2) hd tl).1) = none →
        select_and_download_background scores fetchById r1 r2 = search_phase scores r1 r2) ∧
      (∀ video, fetchById ((pyMaxBy (fun p => p.2) hd tl).1) = some video →
        get_best_video_file video = none →
        select_and_download_background scores fetchById r1 r2 = search_phase scores r1 r2) ∧
      (∀ video url, fetchById ((pyMaxBy (fun p => p.2) hd tl).1) = some video →
        get_best_video_file video = some url →
        select_and_download_background scores fetchById r1 r2
          = .ok ((pyMaxBy (fun p => p.2) hd tl).1, url))) := by
  refine ⟨?_, ?_⟩
  · intro hfil
    simp only [select_and_download_background, hfil]
  · intro hd tl hfil
    refine ⟨?_, ?_, ?_, ?_, ?_⟩
    · exact pyMaxBy_split (fun p : String × ℚ => p.2) tl hd
    · intro g hg
      simp only [select_and_download_background, hfil, hg]
    · intro hn
      simp only [select_and_download_background, hfil, hn]
    · intro video hv hg
      simp only [select_and_download_background, hfil, hv, hg]
    · intro video url hv hg
      simp only [select_and_download_background, hfil, hv, hg]

/-- C3 witness: with `backgroundScores = {"A": 3.0, "B": 1.0}` the single
attempted id is `"A"`; its fetch failing, the selector falls through to
the search phase (and never attempts `"B"`). -/
theorem spec_C3_witness :
    select_and_download_background [("A", (3:ℚ)), ("B", 1)] (fun _ => none) [] []
      = search_phase [("A", (3:ℚ)), ("B", 1)] [] [] ∧
    (pyMaxBy (fun p : String × ℚ => p.2) ("A", (3:ℚ)) []).1 = "A" := by
  have h := spec_C3_reuse_phase [("A", (3:ℚ)), ("B", 1)] (fun _ => none) [] []
  exact ⟨(h.2 ("A", (3:ℚ)) [] (by decide)).2.2.1 rfl, rfl⟩

/-- C4: search phase of the selector. Both keyword draws empty fails with
`NoBackgroundAvailable`; a non-empty first draw makes the second draw
irrelevant (exactly one retry, only on empty); candidates are a
permutation sorted by `candidate_score` descending with the original
query order as stable tie-break; a success returns the first candidate
in sorted order with an eligible rendition as `(str(id), url)`; if no
candidate has one the phase fails with `NoEligibleBackground`; and on
the concrete example, `{id:"Y", 10s, history 1.5}` scores 14/3, beats
`{id:"X", 120s, history 0}` at 1.0 and sorts before it. -/
theorem spec_C4_search_phase (scores : List (String × ℚ)) (r1 r2 : List PexelsVideo) :
    (r1 = [] → r2 = [] → search_phase scores r1 r2 = .error .noBackgroundAvailable) ∧
    (r1 ≠ [] → ∀ r2a r2b, search_phase scores r1 r2a = search_phase scores r1 r2b) ∧
    ((sortDesc (candidate_score scores) (if r1.isEmpty then r2 else r1)).Perm
      (if r1.isEmpty then r2 else r1)) ∧
    ((sortDesc (candidate_score scores) (if r1.isEmpty then r2 else r1)).Sorted
      (fun a b => candidate_score scores b ≤ candidate_score scores a)) ∧
    (∀ q, (sortDesc (candidate_score scores) (if r1.isEmpty then r2 else r1)).filter
        (fun z => decide (candidate_score scores z = q))
      = (if r1.isEmpty then r2 else r1).filter
          (fun z => decide (candidate_score scores z = q))) ∧
    (∀ i u, search_phase scores r1 r2 = .ok (i, u) →
      ∃ l1 l2 w, sortDesc (candidate_score scores) (if r1.isEmpty then r2 else r1)
          = l1 ++ w :: l2 ∧ (∀ x ∈ l1, get_best_video_file x = none) ∧
        get_best_video_file w = some u ∧ i = pyStr w.id) ∧
    ((if r1.isEmpty then r2 else r1) ≠ [] →
      firstEligible (sortDesc (candidate_score scores) (if r1.isEmpty then r2 else r1)) = none →
      search_phase scores r1 r2 = .error .noEligibleBackground) ∧
    (candidate_score [("Y", (3:ℚ)/2)] ⟨PId.strId "Y", 10, []⟩ = 14/3 ∧
      candidate_score [("Y", (3:ℚ)/2)] ⟨PId.strId "X", 120, []⟩ = 1 ∧
      sortDesc (candidate_score [("Y", (3:ℚ)/2)])
          [⟨PId.strId "X", 120, []⟩, ⟨PId.strId "Y", 10, []⟩]
        = [⟨PId.strId "Y", 10, []⟩, ⟨PId.strId "X", 120, []⟩]) := by
  have e1 : candidate_score [("Y", (3:ℚ)/2)] ⟨PId.strId "Y", 10, []⟩ = 14/3 := by
    unfold candidate_score
    simp only [pyStr]
    rw [lookupScore_cons_self]
    norm_num [min_def]
  have e2 : candidate_score [("Y", (3:ℚ)/2)] ⟨PId.strId "X", 120, []⟩ = 1 := by
    unfold candidate_score
    simp only [pyStr]
    rw [lookupScore_cons_of_ne "Y" "X" _ _ (by decide)]
    rw [show lookupScore [] "X" = 0 from rfl]
    norm_num [min_def]
  have e3 : sortDesc (candidate_score [("Y", (3:ℚ)/2)])
      [⟨PId.strId "X", 120, []⟩, ⟨PId.strId "Y", 10, []⟩]
      = [⟨PId.strId "Y", 10, []⟩, ⟨PId.strId "X", 120, []⟩] := by
    simp only [sortDesc, insertDesc]
    rw [if_neg]
    rw [e1, e2]
    norm_num
  refine ⟨?_, ?_, sortDesc_perm _ _, sortDesc_sorted _ _, fun q => sortDesc_stable _ q _,
    ?_, ?_, e1, e2, e3⟩
  · intro h1 h2
    subst h1
    subst h2
    rfl
  · intro h1 r2a r2b
    cases r1 with
    | nil => exact absurd rfl h1
    | cons a as => rfl
  · intro i u h
    simp only [search_phase] at h
    by_cases hce : (if r1.isEmpty then r2 else r1).isEmpty
    · rw [if_pos hce] at h
      exact absurd h (by simp)
    · rw [if_neg hce] at h
      cases hfe : firstEligible (sortDesc (candidate_score scores)
          (if r1.isEmpty then r2 else r1)) with
      | none =>
        rw [hfe] at h
        exact absurd h (by simp)
      | some p =>
        rcases p with ⟨w, url⟩
        rw [hfe] at h
        simp only [Except.ok.injEq, Prod.mk.injEq] at h
        obtain ⟨hi, hu⟩ := h
        obtain ⟨l1, l2, he, hn, hw⟩ := firstEligible_split _ w url hfe
        exact ⟨l1, l2, w, he, hn, by rw [hw, hu], hi.symm⟩
  · intro hne hfe
    have hce : ¬ ((if r1.isEmpty then r2 else r1).isEmpty = true) := by
      rw [List.isEmpty_iff]
      exact hne
    simp only [search_phase, if_neg hce, hfe]

/-- C4 witness: both draws empty gives `NoBackgroundAvailable`; with a
non-empty first draw the second draw does not influence the result; a
first draw whose only candidate has no eligible rendition gives
`NoEligibleBackground`. -/
theorem spec_C4_witness :
    search_phase [] [] [] = .error .noBackgroundAvailable ∧
    search_phase [] [⟨PId.intId 5, 30, [⟨1080, 1920, "link"⟩]⟩] []
      = search_phase [] [⟨PId.intId 5, 30, [⟨1080, 1920, "link"⟩]⟩] [⟨PId.intId 6, 30, []⟩] ∧
    search_phase [] [⟨PId.intId 9, 30, []⟩] [] = .error .noEligibleBackground := by
  have h0 := spec_C4_search_phase [] [] []
  have h1 := spec_C4_search_phase [] [⟨PId.intId 5, 30, [⟨1080, 1920, "link"⟩]⟩] []
  have h2 := spec_C4_search_phase [] [⟨PId.intId 9, 30, []⟩] []
  refine ⟨h0.1 rfl rfl, ?_, ?_⟩
  · exact h1.2.1 (by simp) [] [⟨PId.intId 6, 30, []⟩]
  · exact h2.2.2.2.2.2.2.1 (by simp) rfl

/-- C2 counterexample: a 120-second video that is found, not live, not
age-restricted, embeddable and public passes the composed candidate
filter (used-id check plus `validate_video`) even though it violates the
claimed eligibility condition `durationSeconds < 60` — the filter
re-checks neither duration nor license. -/
theorem spec_C2_counterexample :
    filter_candidates
        [⟨"v120", "t", "c", 120, false, true, true, "none", "", "public"⟩] none
      = [⟨"v120", "t", "c", 120, false, true, true, "none", "", "public"⟩] ∧
    ¬ ((⟨"v120", "t", "c", 120, false, true, true, "none", "", "public"⟩ : YTVideo).duration_seconds
        < 60) := by
  refine ⟨by decide, by decide⟩

/-- C2 amended: the candidate filter returns an order-preserving
subsequence of its input, and every returned item is unused, found, not
live, not age-restricted, embeddable and public; the duration and
Creative-Commons conditions are enforced only upstream by the fetch
query (`youtube_fetcher`), not re-checked by this filter. -/
theorem spec_C2_filter_subsequence (videos : List YTVideo) (fs : Option DB) :
    (filter_candidates videos fs).Sublist videos ∧
    ∀ v ∈ filter_candidates videos fs,
      is_used v.videoId fs = false ∧ v.found = true ∧
      v.liveBroadcastContent = "none" ∧ v.ytRating ≠ "ytAgeRestricted" ∧
      v.embeddable = true ∧ v.privacyStatus = "public" := by
  constructor
  · exact (List.filter_sublist _).trans (List.filter_sublist _)
  · intro v hv
    unfold filter_candidates filter_valid_videos at hv
    have h1 := List.of_mem_filter hv
    have h2 : v ∈ videos.filter (fun v => !(is_used v.videoId fs)) :=
      List.mem_of_mem_filter hv
    have h3 := List.of_mem_filter h2
    unfold validate_video at h1
    simp only [Bool.and_eq_true, beq_iff_eq, Bool.not_eq_true'] at h1
    simp only [Bool.not_eq_true'] at h3
    refine ⟨h3, h1.1.1.1.1, h1.1.1.1.2, ?_, h1.1.2, h1.2⟩
    intro hc
    rw [hc] at h1
    have := h1.1.1.2
    simp at this

/-- C2 witness: a concrete eligible 45-second video is returned by the
filter and satisfies all properties the filter actually enforces. -/
theorem spec_C2_witness :
    is_used "v1" none = false ∧ (true : Bool) = true ∧
    ("none" : String) = "none" ∧ ("" : String) ≠ "ytAgeRestricted" ∧
    (true : Bool) = true ∧ ("public" : String) = "public" := by
  have h := (spec_C2_filter_subsequence
      [(⟨"v1", "t", "c", 45, true, true, true, "none", "", "public"⟩ : YTVideo)] none).2
    ⟨"v1", "t", "c", 45, true, true, true, "none", "", "public"⟩ (by decide)
  exact h

theorem mem_uploadStep_yt (env : Env) (h : env.ytCreds = true) :
    (Plat.youtube, attemptOk env.uploadYt) ∈ uploadStep env := by
  simp [uploadStep, h]

theorem mem_uploadStep_ig (env : Env) (h : env.igCreds = true) :
    (Plat.instagram, attemptOk env.uploadIg) ∈ uploadStep env := by
  simp [uploadStep, h]

theorem mem_uploadStep_tt (env : Env) (h : env.ttCreds = true) :
    (Plat.tiktok, attemptOk env.uploadTt) ∈ uploadStep env := by
  simp [uploadStep, h]

/-- C1: history is mutated only by the final commit. Every non-success
run (empty fetch, all used, none valid, or a fatal failure in download,
background removal, background selection or composition) leaves the
persisted state untouched; a successful run commits exactly
`mark_used` then `record_background(..., 1.0)`; the run's outcome and
final state are independent of the per-platform upload results (a
platform failure neither aborts the run nor blocks the commit); and on a
non-dry successful run every platform with credentials is attempted
regardless of the other platforms' results. -/
theorem spec_C1_persist_history_last (env : Env) (fs : Option DB) :
    ((∀ vid bg, (runMain env fs).outcome ≠ RunOutcome.success vid bg) →
      (runMain env fs).fsAfter = fs) ∧
    (∀ vid bg, (runMain env fs).outcome = RunOutcome.success vid bg →
      (runMain env fs).fsAfter = record_background (PId.strId bg) 1 (mark_used vid fs)) ∧
    (∀ uy ui ut,
      (runMain { env with uploadYt := uy, uploadIg := ui, uploadTt := ut } fs).outcome
        = (runMain env fs).outcome ∧
      (runMain { env with uploadYt := uy, uploadIg := ui, uploadTt := ut } fs).fsAfter
        = (runMain env fs).fsAfter) ∧
    (∀ vid bg, (runMain env fs).outcome = RunOutcome.success vid bg →
      env.dryRun = false →
      (env.ytCreds = true →
        (Plat.youtube, attemptOk env.uploadYt) ∈ (runMain env fs).attempts) ∧
      (env.igCreds = true →
        (Plat.instagram, attemptOk env.uploadIg) ∈ (runMain env fs).attempts) ∧
      (env.ttCreds = true →
        (Plat.tiktok, attemptOk env.uploadTt) ∈ (runMain env fs).attempts)) := by
  by_cases h1 : env.videos.isEmpty
  · exact ⟨fun _ => by simp [runMain, h1], fun vid bg heq => by simp [runMain, h1] at heq,
      fun uy ui ut => ⟨by simp [runMain, h1], by simp [runMain, h1]⟩,
      fun vid bg heq => by simp [runMain, h1] at heq⟩
  · by_cases h2 : (env.videos.filter (fun v => !(is_used v.videoId fs))).isEmpty
    · exact ⟨fun _ => by simp [runMain, h1, h2],
        fun vid bg heq => by simp [runMain, h1, h2] at heq,
        fun uy ui ut => ⟨by simp [runMain, h1, h2], by simp [runMain, h1, h2]⟩,
        fun vid bg heq => by simp [runMain, h1, h2] at heq⟩
    · cases hv : filter_valid_videos (env.videos.filter (fun v => !(is_used v.videoId fs))) with
      | nil =>
        exact ⟨fun _ => by simp [runMain, h1, h2, hv],
          fun vid bg heq => by simp [runMain, h1, h2, hv] at heq,
          fun uy ui ut => ⟨by simp [runMain, h1, h2, hv], by simp [runMain, h1, h2, hv]⟩,
          fun vid bg heq => by simp [runMain, h1, h2, hv] at heq⟩
      | cons video rest =>
        cases hd : env.download with
        | error e =>
          exact ⟨fun _ => by simp [runMain, h1, h2, hv, hd],
            fun vid bg heq => by simp [runMain, h1, h2, hv, hd] at heq,
            fun uy ui ut => ⟨by simp [runMain, h1, h2, hv, hd],
              by simp [runMain, h1, h2, hv, hd]⟩,
            fun vid bg heq => by simp [runMain, h1, h2, hv, hd] at heq⟩
        | ok dl =>
          cases hrb : env.removeBg with
          | error e =>
            exact ⟨fun _ => by simp [runMain, h1, h2, hv, hd, hrb],
              fun vid bg heq => by simp [runMain, h1, h2, hv, hd, hrb] at heq,
              fun uy ui ut => ⟨by simp [runMain, h1, h2, hv, hd, hrb],
                by simp [runMain, h1, h2, hv, hd, hrb]⟩,
              fun vid bg heq => by simp [runMain, h1, h2, hv, hd, hrb] at heq⟩
          | ok rb =>
            cases hsel : select_and_download_background (get_background_scores fs)
                env.fetchById env.results1 env.results2 with
            | error e =>
              exact ⟨fun _ => by simp [runMain, h1, h2, hv, hd, hrb, hsel],
                fun vid bg heq => by simp [runMain, h1, h2, hv, hd, hrb, hsel] at heq,
                fun uy ui ut => ⟨by simp [runMain, h1, h2, hv, hd, hrb, hsel],
                  by simp [runMain, h1, h2, hv, hd, hrb, hsel]⟩,
                fun vid bg heq => by simp [runMain, h1, h2, hv, hd, hrb, hsel] at heq⟩
            | ok p =>
              obtain ⟨pid, url⟩ := p
              cases hc : env.compose with
              | error e =>
                exact ⟨fun _ => by simp [runMain, h1, h2, hv, hd, hrb, hsel, hc],
                  fun vid bg heq => by simp [runMain, h1, h2, hv, hd, hrb, hsel, hc] at heq,
                  fun uy ui ut => ⟨by simp [runMain, h1, h2, hv, hd, hrb, hsel, hc],
                    by simp [runMain, h1, h2, hv, hd, hrb, hsel, hc]⟩,
                  fun vid bg heq => by simp [runMain, h1, h2, hv, hd, hrb, hsel, hc] at heq⟩
              | ok cp =>
                refine ⟨?_, ?_, ?_, ?_⟩
                · intro hne
                  exact absurd (by simp [runMain, h1, h2, hv, hd, hrb, hsel, hc])
                    (hne video.videoId pid)
                · intro vid bg heq
                  simp [runMain, h1, h2, hv, hd, hrb, hsel, hc] at heq
                  obtain ⟨ha, hb⟩ := heq
                  simp [runMain, h1, h2, hv, hd, hrb, hsel, hc, ha, hb]
                · intro uy ui ut
                  constructor
                  · simp [runMain, h1, h2, hv, hd, hrb, hsel, hc]
                  · simp [runMain, h1, h2, hv, hd, hrb, hsel, hc]
                · intro vid bg heq hdry
                  refine ⟨?_, ?_, ?_⟩
                  · intro hyt
                    have hm := mem_uploadStep_yt env hyt
                    simp [runMain, h1, h2, hv, hd, hrb, hsel, hc, hdry]
                    exact hm
                  · intro hig
                    have hm := mem_uploadStep_ig env hig
                    simp [runMain, h1, h2, hv, hd, hrb, hsel, hc, hdry]
                    exact hm
                  · intro htt
                    have hm := mem_uploadStep_tt env htt
                    simp [runMain, h1, h2, hv, hd, hrb, hsel, hc, hdry]
                    exact hm

/-- C1 witness: a concrete run with one eligible 45s video, empty
history, all stages succeeding, YouTube upload failing and Instagram
succeeding still commits `mark_used "v1"` and the background score, and
still attempts Instagram. -/
theorem spec_C1_witness :
    (runMain ⟨[⟨"v1", "t", "c", 45, true, true, true, "none", "", "public"⟩],
        .ok ("v.mp4", "a.m4a"), .ok "t.mov", fun _ => none,
        [⟨PId.intId 5, 30, [⟨1080, 1920, "link"⟩]⟩], [], .ok "f.mp4",
        false, true, true, false, .error "boom", .ok (), .ok ()⟩ none).fsAfter
      = record_background (PId.strId "5") 1 (mark_used "v1" none) ∧
    (Plat.instagram, true) ∈
      (runMain ⟨[⟨"v1", "t", "c", 45, true, true, true, "none", "", "public"⟩],
        .ok ("v.mp4", "a.m4a"), .ok "t.mov", fun _ => none,
        [⟨PId.intId 5, 30, [⟨1080, 1920, "link"⟩]⟩], [], .ok "f.mp4",
        false, true, true, false, .error "boom", .ok (), .ok ()⟩ none).attempts := by
  have h := spec_C1_persist_history_last
    ⟨[⟨"v1", "t", "c", 45, true, true, true, "none", "", "public"⟩],
      .ok ("v.mp4", "a.m4a"), .ok "t.mov", fun _ => none,
      [⟨PId.intId 5, 30, [⟨1080, 1920, "link"⟩]⟩], [], .ok "f.mp4",
      false, true, true, false, .error "boom", .ok (), .ok ()⟩ none
  exact ⟨h.2.1 "v1" "5" rfl, (h.2.2.2 "v1" "5" rfl rfl).2.1 rfl⟩
